import Mathlib

/-!
# Settings store of the Tox Qt GUI (`src/Settings/settings.cpp`)

A shallow embedding of `Settings::load`, `Settings::save`, the setters and the
window helpers.

The Qt classes the file uses are modelled as follows.

* `QString` is `String`, `QByteArray` is a list of bytes, a C++ `int` is `Int`
  (no arithmetic is performed on it).
* `QVariant` carries one of the four value types the file stores, or is invalid.
  A conversion to the type the variant already holds is the identity, an invalid
  variant converts to the empty / zero / false value, and every cross-type
  conversion is a parameter (`Qt.coerce...`).
* `QSettings` is its table of entries together with the group stack.  A key such
  as `DHT Server/dhtServerList/1/name` is kept as the list of its slash-separated
  segments; `normalizedKey` drops empty segments as Qt does.  Keys are compared
  exactly.  The text encoding of the INI file is not modelled: a file is the table
  of entries `QSettings` parses from it.
* `QHash<QString, WindowSettings>` is an association list read through `lookup`.
* Signals emitted by a setter are returned as a list next to the new state.
-/

namespace ToxSettings

/-! ## Qt value types -/

abbrev QByteArray := List (Fin 256)

inductive QVariant where
  | invalid
  | string (s : String)
  | int (n : Int)
  | bool (b : Bool)
  | byteArray (b : QByteArray)
deriving DecidableEq, Repr

/-- Platform services and the parts of Qt that are parameters of the model. -/
structure Qt where
  /-- The value of `QApplication::font().pointSize()`. -/
  fontPointSize : Int
  /-- Conversion `QVariant::toString` of a valid variant that holds no `QString`. -/
  coerceString : QVariant → String
  /-- Conversion `QVariant::toInt` of a valid variant that holds no `int`. -/
  coerceInt : QVariant → Int
  /-- Conversion `QVariant::toBool` of a valid variant that holds no `bool`. -/
  coerceBool : QVariant → Bool
  /-- Conversion `QVariant::toByteArray` of a valid variant that holds no `QByteArray`. -/
  coerceByteArray : QVariant → QByteArray

def QVariant.toString (q : Qt) : QVariant → String
  | .invalid => ""
  | .string s => s
  | v => q.coerceString v

def QVariant.toInt (q : Qt) : QVariant → Int
  | .invalid => 0
  | .int n => n
  | v => q.coerceInt v

def QVariant.toBool (q : Qt) : QVariant → Bool
  | .invalid => false
  | .bool b => b
  | v => q.coerceBool v

def QVariant.toByteArray (q : Qt) : QVariant → QByteArray
  | .invalid => []
  | .byteArray b => b
  | v => q.coerceByteArray v

/-! ## Decimal rendering of array indices -/

/-- Decimal digits of `n`, most significant first; `fuel` bounds the number of digits. -/
def decimalAux : Nat → Nat → List Char
  | 0, _ => []
  | fuel + 1, n =>
    if n < 10 then [Nat.digitChar n]
    else decimalAux fuel (n / 10) ++ [Nat.digitChar (n % 10)]

/-- The string `QString::number(n)` for a non-negative `n`. -/
def number (n : Nat) : String := String.mk (decimalAux (n + 1) n)

/-! ## QSettings -/

abbrev Key := List String

abbrev Entries := List (Key × QVariant)

/-- Split a character list at every slash. -/
def segments : List Char → List (List Char)
  | [] => [[]]
  | c :: cs =>
    if c = '/' then [] :: segments cs
    else
      match segments cs with
      | [] => [[c]]
      | s :: ss => (c :: s) :: ss

/-- The key with leading, trailing and repeated slashes removed, as its segments. -/
def normalizedKey (key : String) : Key :=
  ((segments key.data).filter (fun s => !s.isEmpty)).map String.mk

/-- One level of the group stack: `num` is -1 for a plain group, 0 for an array
whose index is not set, and index + 1 after `setArrayIndex`. -/
structure QSettingsGroup where
  str : Key
  num : Int
deriving DecidableEq, Repr

def QSettingsGroup.toKey (g : QSettingsGroup) : Key :=
  if 0 < g.num then g.str ++ [number g.num.toNat] else g.str

structure QSettings where
  entries : Entries
  /-- Innermost group first. -/
  groupStack : List QSettingsGroup
deriving DecidableEq, Repr

/-- The segments of the current group path, outermost group first. -/
def groupPath : List QSettingsGroup → Key
  | [] => []
  | g :: rest => groupPath rest ++ g.toKey

def QSettings.actualKey (s : QSettings) (key : String) : Key :=
  groupPath s.groupStack ++ normalizedKey key

def QSettings.beginGroup (s : QSettings) (name : String) : QSettings :=
  { s with groupStack := { str := normalizedKey name, num := -1 } :: s.groupStack }

def QSettings.endGroup (s : QSettings) : QSettings :=
  { s with groupStack := s.groupStack.tail }

def QSettings.endArray (s : QSettings) : QSettings :=
  { s with groupStack := s.groupStack.tail }

def QSettings.setArrayIndex (s : QSettings) (i : Nat) : QSettings :=
  match s.groupStack with
  | [] => s
  | g :: rest =>
    if g.num = -1 then s
    else { s with groupStack := { g with num := (i : Int) + 1 } :: rest }

def QSettings.value (s : QSettings) (key : String) (defaultValue : QVariant) : QVariant :=
  (s.entries.lookup (s.actualKey key)).getD defaultValue

def setEntry (k : Key) (v : QVariant) (es : Entries) : Entries :=
  (k, v) :: es.filter (fun e => !(e.1 == k))

def QSettings.setValue (s : QSettings) (key : String) (v : QVariant) : QSettings :=
  { s with entries := setEntry (s.actualKey key) v s.entries }

def QSettings.clear (s : QSettings) : QSettings :=
  { s with entries := [] }

def QSettings.beginReadArray (q : Qt) (s : QSettings) (name : String) : Int × QSettings :=
  let s := { s with groupStack := { str := normalizedKey name, num := 0 } :: s.groupStack }
  ((s.value "size" .invalid).toInt q, s)

/-- Array opened for writing with a non-negative size. -/
def QSettings.beginWriteArray (s : QSettings) (name : String) (size : Nat) : QSettings :=
  let s := { s with groupStack := { str := normalizedKey name, num := 0 } :: s.groupStack }
  s.setValue "size" (.int size)

/-- The part of `key` after the path `p` when `key` lies strictly below a subgroup of `p`:
the name of that subgroup. -/
def childGroupOf (p : Key) (key : Key) : Option String :=
  if p.isPrefixOf key then
    match key.drop p.length with
    | g :: _ :: _ => some g
    | _ => none
  else none

def QSettings.childGroups (s : QSettings) : List String :=
  (s.entries.filterMap (fun e => childGroupOf (groupPath s.groupStack) e.1)).dedup

/-! ## Data model of the store -/

structure DhtServer where
  name : String
  userId : String
  address : String
  port : Int
deriving DecidableEq, Repr

structure WindowSettings where
  geometry : QByteArray
  state : QByteArray
deriving DecidableEq, Repr

instance : Inhabited WindowSettings := ⟨{ geometry := [], state := [] }⟩

abbrev QHash := List (String × WindowSettings)

def QHash.constFind (h : QHash) (k : String) : Option WindowSettings :=
  List.lookup k h

def QHash.value (h : QHash) (k : String) : WindowSettings :=
  (List.lookup k h).getD default

def QHash.keys (h : QHash) : List String :=
  (h.map Prod.fst).dedup

/-- The effect of `h[k].field = ...`: the entry is created with a default value when absent
and then updated by `f`. -/
def QHash.update (k : String) (f : WindowSettings → WindowSettings) : QHash → QHash
  | [] => [(k, f default)]
  | (k0, v) :: rest =>
    if k0 = k then (k0, f v) :: rest else (k0, v) :: QHash.update k f rest

structure Settings where
  loaded : Bool
  dhtServerList : List DhtServer
  enableLogging : Bool
  encryptLogs : Bool
  username : String
  statusMessage : String
  windowSettings : QHash
  enableSmoothAnimation : Bool
  smileyPack : QByteArray
  customEmojiFont : Bool
  emojiFontFamily : String
  emojiFontPointSize : Int
deriving DecidableEq, Repr

inductive Signal where
  | dhtServerListChanged
  | smileyPackChanged
  | emojiFontChanged
deriving DecidableEq, Repr

/-- The two places a configuration can be read from; `none` is a file that does not exist. -/
structure FileSystem where
  /-- The file `settings.ini` in the writable configuration location. -/
  userFile : Option Entries
  /-- The bundled resource `:/texts/settings.ini`. -/
  bundledFile : Option Entries
deriving DecidableEq, Repr

/-- The entries `QSettings s(filePath, QSettings::IniFormat)` holds after `load` has chosen
the path: the user file when it exists, else the bundled one. -/
def FileSystem.readable (fs : FileSystem) : Entries :=
  match fs.userFile with
  | some es => es
  | none => fs.bundledFile.getD []

/-! ## Settings::load -/

/-- The record read at the current array index. -/
def readServer (q : Qt) (s : QSettings) : DhtServer :=
  { name := (s.value "name" .invalid).toString q
    userId := (s.value "userId" .invalid).toString q
    address := (s.value "address" .invalid).toString q
    port := (s.value "port" .invalid).toInt q }

/-- One iteration of the loop over the server array in `load`. -/
def loadServerStep (q : Qt) (acc : QSettings × List DhtServer) (i : Nat) :
    QSettings × List DhtServer :=
  let s := acc.1.setArrayIndex i
  (s, acc.2 ++ [readServer q s])

/-- One iteration of the loop over the window subgroups in `load`. -/
def loadWindowStep (q : Qt) (acc : QSettings × QHash) (name : String) : QSettings × QHash :=
  let s := acc.1.beginGroup name
  let h := QHash.update name
    (fun w => { w with geometry := (s.value "geometry" .invalid).toByteArray q }) acc.2
  let h := QHash.update name
    (fun w => { w with state := (s.value "state" .invalid).toByteArray q }) h
  (s.endGroup, h)

def Settings.load (q : Qt) (fs : FileSystem) (st : Settings) : Settings :=
  if st.loaded then st
  else
    let s : QSettings := { entries := fs.readable, groupStack := [] }
    let s := s.beginGroup "DHT Server"
    let r := s.beginReadArray q "dhtServerList"
    let serverListSize := r.1
    let sl := (List.range serverListSize.toNat).foldl (loadServerStep q) (r.2, st.dhtServerList)
    let s := sl.1.endArray
    let s := s.endGroup
    let s := s.beginGroup "General"
    let username := (s.value "username" (.string "My name")).toString q
    let statusMessage := (s.value "statusMessage" (.string "My status")).toString q
    let s := s.endGroup
    let s := s.beginGroup "WindowSettings"
    let windowNames := s.childGroups
    let sw := windowNames.foldl (loadWindowStep q) (s, st.windowSettings)
    let s := sw.1.endGroup
    let s := s.beginGroup "GUI"
    { loaded := true
      dhtServerList := sl.2
      enableLogging := st.enableLogging
      encryptLogs := st.encryptLogs
      username := username
      statusMessage := statusMessage
      windowSettings := sw.2
      enableSmoothAnimation := (s.value "smoothAnimation" (.bool true)).toBool q
      smileyPack := (s.value "smileyPack" .invalid).toByteArray q
      customEmojiFont := (s.value "customEmojiFont" (.bool true)).toBool q
      emojiFontFamily := (s.value "emojiFontFamily" (.string "DejaVu Sans")).toString q
      emojiFontPointSize := (s.value "emojiFontPointSize" (.int q.fontPointSize)).toInt q }

/-- The primitive members the constructor leaves without an initialiser; the values they
hold are whatever the declaration of the class or the storage of the object gives them. -/
structure Uninitialised where
  enableLogging : Bool
  encryptLogs : Bool
  enableSmoothAnimation : Bool
  customEmojiFont : Bool
  emojiFontPointSize : Int
deriving DecidableEq, Repr

/-- The object as the member initialiser list `loaded(false)` leaves it: Qt containers and
strings are default-constructed, hence empty. -/
def Settings.initial (u : Uninitialised) : Settings :=
  { loaded := false
    dhtServerList := []
    enableLogging := u.enableLogging
    encryptLogs := u.encryptLogs
    username := ""
    statusMessage := ""
    windowSettings := []
    enableSmoothAnimation := u.enableSmoothAnimation
    smileyPack := []
    customEmojiFont := u.customEmojiFont
    emojiFontFamily := ""
    emojiFontPointSize := u.emojiFontPointSize }

/-- The constructor `Settings::Settings()`: it calls `load`. -/
def Settings.construct (q : Qt) (u : Uninitialised) (fs : FileSystem) : Settings :=
  (Settings.initial u).load q fs

/-! ## Settings::save -/

/-- The loop over the server list in `save`, from index `i` on. -/
def saveServers : Nat → List DhtServer → QSettings → QSettings
  | _, [], s => s
  | i, server :: rest, s =>
    let s := s.setArrayIndex i
    let s := s.setValue "name" (.string server.name)
    let s := s.setValue "userId" (.string server.userId)
    let s := s.setValue "address" (.string server.address)
    let s := s.setValue "port" (.int server.port)
    saveServers (i + 1) rest s

/-- One iteration of the loop over the window names in `save`. -/
def saveWindowStep (h : QHash) (s : QSettings) (name : String) : QSettings :=
  let s := s.beginGroup name
  let s := s.setValue "geometry" (.byteArray (QHash.value h name).geometry)
  let s := s.setValue "state" (.byteArray (QHash.value h name).state)
  s.endGroup

/-- The table `save` leaves in its `QSettings` object, opened on the entries `old`. -/
def Settings.saveEntries (st : Settings) (old : Entries) : Entries :=
  let s : QSettings := { entries := old, groupStack := [] }
  let s := s.clear
  let s := s.beginGroup "DHT Server"
  let s := s.beginWriteArray "dhtServerList" st.dhtServerList.length
  let s := saveServers 0 st.dhtServerList s
  let s := s.endArray
  let s := s.endGroup
  let s := s.beginGroup "General"
  let s := s.setValue "username" (.string st.username)
  let s := s.setValue "statusMessage" (.string st.statusMessage)
  let s := s.endGroup
  let s := s.beginGroup "WindowSettings"
  let windowNames := QHash.keys st.windowSettings
  let s := windowNames.foldl (saveWindowStep st.windowSettings) s
  let s := s.endGroup
  let s := s.beginGroup "GUI"
  let s := s.setValue "smoothAnimation" (.bool st.enableSmoothAnimation)
  let s := s.setValue "smileyPack" (.byteArray st.smileyPack)
  let s := s.setValue "customEmojiFont" (.bool st.customEmojiFont)
  let s := s.setValue "emojiFontFamily" (.string st.emojiFontFamily)
  let s := s.setValue "emojiFontPointSize" (.int st.emojiFontPointSize)
  let s := s.endGroup
  s.entries

/-- The method `Settings::save`: the `QSettings` object is opened on the user file (empty when
the file does not exist) and written back to it. -/
def Settings.save (st : Settings) (fs : FileSystem) : FileSystem :=
  { fs with userFile := some (st.saveEntries (fs.userFile.getD [])) }

/-! ## Getters and setters -/

def Settings.getDhtServerList (st : Settings) : List DhtServer := st.dhtServerList

def Settings.setDhtServerList (st : Settings) (newDhtServerList : List DhtServer) :
    Settings × List Signal :=
  ({ st with dhtServerList := newDhtServerList }, [.dhtServerListChanged])

def Settings.getUsername (st : Settings) : String := st.username

def Settings.setUsername (st : Settings) (newUsername : String) : Settings × List Signal :=
  ({ st with username := newUsername }, [])

def Settings.getStatusMessage (st : Settings) : String := st.statusMessage

def Settings.setStatusMessage (st : Settings) (newMessage : String) : Settings × List Signal :=
  ({ st with statusMessage := newMessage }, [])

def Settings.getEnableLogging (st : Settings) : Bool := st.enableLogging

def Settings.setEnableLogging (st : Settings) (newValue : Bool) : Settings × List Signal :=
  ({ st with enableLogging := newValue }, [])

def Settings.getEncryptLogs (st : Settings) : Bool := st.encryptLogs

def Settings.setEncryptLogs (st : Settings) (newValue : Bool) : Settings × List Signal :=
  ({ st with encryptLogs := newValue }, [])

def Settings.isAnimationEnabled (st : Settings) : Bool := st.enableSmoothAnimation

def Settings.setAnimationEnabled (st : Settings) (newValue : Bool) : Settings × List Signal :=
  ({ st with enableSmoothAnimation := newValue }, [])

def Settings.getSmileyPack (st : Settings) : QByteArray := st.smileyPack

def Settings.setSmileyPack (st : Settings) (value : QByteArray) : Settings × List Signal :=
  ({ st with smileyPack := value }, [.smileyPackChanged])

def Settings.isCurstomEmojiFont (st : Settings) : Bool := st.customEmojiFont

def Settings.setCurstomEmojiFont (st : Settings) (value : Bool) : Settings × List Signal :=
  ({ st with customEmojiFont := value }, [.emojiFontChanged])

def Settings.getEmojiFontPointSize (st : Settings) : Int := st.emojiFontPointSize

def Settings.setEmojiFontPointSize (st : Settings) (value : Int) : Settings × List Signal :=
  ({ st with emojiFontPointSize := value }, [.emojiFontChanged])

def Settings.getEmojiFontFamily (st : Settings) : String := st.emojiFontFamily

def Settings.setEmojiFontFamily (st : Settings) (value : String) : Settings × List Signal :=
  ({ st with emojiFontFamily := value }, [.emojiFontChanged])

/-! ## Window helpers -/

/-- The window as the store sees it: `saveGeometry()` and `saveState()` return the two blobs,
`restoreGeometry` and `restoreState` install the blob they are given. -/
structure QMainWindow where
  objectName : String
  geometry : QByteArray
  state : QByteArray
deriving DecidableEq, Repr

def QMainWindow.saveGeometry (w : QMainWindow) : QByteArray := w.geometry

def QMainWindow.saveState (w : QMainWindow) : QByteArray := w.state

def QMainWindow.restoreGeometry (w : QMainWindow) (b : QByteArray) : QMainWindow :=
  { w with geometry := b }

def QMainWindow.restoreState (w : QMainWindow) (b : QByteArray) : QMainWindow :=
  { w with state := b }

def Settings.saveWindow (st : Settings) (window : QMainWindow) : Settings :=
  let h := QHash.update window.objectName
    (fun w => { w with geometry := window.saveGeometry }) st.windowSettings
  let h := QHash.update window.objectName
    (fun w => { w with state := window.saveState }) h
  { st with windowSettings := h }

/-- The const method `Settings::loadWindow`; the store is returned next to the window. -/
def Settings.loadWindow (st : Settings) (window : QMainWindow) : Settings × QMainWindow :=
  match QHash.constFind st.windowSettings window.objectName with
  | none => (st, window)
  | some i =>
    let window := window.restoreGeometry i.geometry
    let window := window.restoreState i.state
    (st, window)

/-! ## Concrete inputs used by the examples -/

/-- A platform whose default font has point size 9 and whose cross-type conversions return
the empty value. -/
def exampleQt : Qt :=
  { fontPointSize := 9
    coerceString := fun _ => ""
    coerceInt := fun _ => 0
    coerceBool := fun _ => false
    coerceByteArray := fun _ => [] }

/-- Zero-filled storage, as for an object of static storage duration. -/
def zeroStorage : Uninitialised :=
  { enableLogging := false
    encryptLogs := false
    enableSmoothAnimation := false
    customEmojiFont := false
    emojiFontPointSize := 0 }

/-- No user file and an empty bundled file. -/
def emptyFileSystem : FileSystem := { userFile := none, bundledFile := some [] }

/-- A loaded store with one server, logging enabled and one window named `main`. -/
def exampleStore : Settings :=
  { loaded := true
    dhtServerList := [{ name := "node", userId := "AB12", address := "192.0.2.1", port := 33445 }]
    enableLogging := true
    encryptLogs := true
    username := "Alice"
    statusMessage := "Online"
    windowSettings := [("main", { geometry := [1, 2], state := [3] })]
    enableSmoothAnimation := false
    smileyPack := [7]
    customEmojiFont := false
    emojiFontFamily := "Serif"
    emojiFontPointSize := 11 }

/-- The store `exampleStore` with its window renamed to `a/b`. -/
def slashStore : Settings :=
  { exampleStore with windowSettings := [("a/b", { geometry := [1, 2], state := [3] })] }

def exampleWindow : QMainWindow := { objectName := "main", geometry := [9], state := [8, 8] }

def otherWindow : QMainWindow := { objectName := "chat", geometry := [5], state := [6] }

/-- A user file that holds a stale window subgroup, a stale server and an unknown section. -/
def staleFile : Entries :=
  [ (["WindowSettings", "gone", "geometry"], .byteArray [1]),
    (["DHT Server", "dhtServerList", "5", "name"], .string "old"),
    (["Unknown", "key"], .int 1) ]

/-! ## Closed forms used in the proofs -/

/-- The variant stored under `k`, or `d` when there is none. -/
def entryAt (es : Entries) (k : Key) (d : QVariant) : QVariant :=
  (es.lookup k).getD d

/-- The server record stored at array position `i` of the table `es`. -/
def serverAt (q : Qt) (es : Entries) (i : Nat) : DhtServer :=
  { name := (entryAt es ["DHT Server", "dhtServerList", number (i + 1), "name"] .invalid).toString q
    userId :=
      (entryAt es ["DHT Server", "dhtServerList", number (i + 1), "userId"] .invalid).toString q
    address :=
      (entryAt es ["DHT Server", "dhtServerList", number (i + 1), "address"] .invalid).toString q
    port := (entryAt es ["DHT Server", "dhtServerList", number (i + 1), "port"] .invalid).toInt q }

/-- The layout stored in the table `es` for the subgroup `name` of `WindowSettings`. -/
def windowAt (q : Qt) (es : Entries) (name : String) : WindowSettings :=
  { geometry :=
      (entryAt es ("WindowSettings" :: (normalizedKey name ++ ["geometry"])) .invalid).toByteArray q
    state :=
      (entryAt es ("WindowSettings" :: (normalizedKey name ++ ["state"])) .invalid).toByteArray q }

/-- The subgroups of `WindowSettings` in the table `es`. -/
def windowGroups (es : Entries) : List String :=
  (es.filterMap (fun e => childGroupOf ["WindowSettings"] e.1)).dedup

/-- The map after the two assignments `h[name].geometry = ...; h[name].state = ...`. -/
def assignWindow (name : String) (w : WindowSettings) (h : QHash) : QHash :=
  QHash.update name (fun x => { x with state := w.state })
    (QHash.update name (fun x => { x with geometry := w.geometry }) h)

/-- The number of array records `load` reads from the table `es`. -/
def serverCount (q : Qt) (es : Entries) : Nat :=
  ((entryAt es ["DHT Server", "dhtServerList", "size"] .invalid).toInt q).toNat

/-- The store `load` produces from the table `es` when it is not yet loaded, written with
direct lookups. -/
def loadedFrom (q : Qt) (es : Entries) (st : Settings) : Settings :=
  { loaded := true
    dhtServerList := st.dhtServerList ++ (List.range (serverCount q es)).map (serverAt q es)
    enableLogging := st.enableLogging
    encryptLogs := st.encryptLogs
    username := (entryAt es ["General", "username"] (.string "My name")).toString q
    statusMessage := (entryAt es ["General", "statusMessage"] (.string "My status")).toString q
    windowSettings :=
      (windowGroups es).foldl (fun h name => assignWindow name (windowAt q es name) h)
        st.windowSettings
    enableSmoothAnimation := (entryAt es ["GUI", "smoothAnimation"] (.bool true)).toBool q
    smileyPack := (entryAt es ["GUI", "smileyPack"] .invalid).toByteArray q
    customEmojiFont := (entryAt es ["GUI", "customEmojiFont"] (.bool true)).toBool q
    emojiFontFamily := (entryAt es ["GUI", "emojiFontFamily"] (.string "DejaVu Sans")).toString q
    emojiFontPointSize :=
      (entryAt es ["GUI", "emojiFontPointSize"] (.int q.fontPointSize)).toInt q }

/-- The table after the pairs `ps` have been written one after the other. -/
def writeAll (ps : List (Key × QVariant)) (es : Entries) : Entries :=
  ps.foldl (fun es p => setEntry p.1 p.2 es) es

/-- The four pairs `save` writes for the server at array position `i`. -/
def pairsOfServer (i : Nat) (sv : DhtServer) : List (Key × QVariant) :=
  [ (["DHT Server", "dhtServerList", number (i + 1), "name"], .string sv.name),
    (["DHT Server", "dhtServerList", number (i + 1), "userId"], .string sv.userId),
    (["DHT Server", "dhtServerList", number (i + 1), "address"], .string sv.address),
    (["DHT Server", "dhtServerList", number (i + 1), "port"], .int sv.port) ]

/-- The pairs `save` writes for the servers `l`, the first of them at position `i`. -/
def serverPairs : Nat → List DhtServer → List (Key × QVariant)
  | _, [] => []
  | i, sv :: rest => pairsOfServer i sv ++ serverPairs (i + 1) rest

/-- The two pairs `save` writes for the window `name`. -/
def pairsOfWindow (h : QHash) (name : String) : List (Key × QVariant) :=
  [ ("WindowSettings" :: (normalizedKey name ++ ["geometry"]),
      .byteArray (QHash.value h name).geometry),
    ("WindowSettings" :: (normalizedKey name ++ ["state"]),
      .byteArray (QHash.value h name).state) ]

/-- The pairs `save` writes for the windows `names`. -/
def windowPairs (h : QHash) : List String → List (Key × QVariant)
  | [] => []
  | name :: rest => pairsOfWindow h name ++ windowPairs h rest

/-- The pairs `save` writes in the group `GUI`. -/
def guiPairs (st : Settings) : List (Key × QVariant) :=
  [ (["GUI", "smoothAnimation"], .bool st.enableSmoothAnimation),
    (["GUI", "smileyPack"], .byteArray st.smileyPack),
    (["GUI", "customEmojiFont"], .bool st.customEmojiFont),
    (["GUI", "emojiFontFamily"], .string st.emojiFontFamily),
    (["GUI", "emojiFontPointSize"], .int st.emojiFontPointSize) ]

/-- The pairs `save` writes before the window subgroups. -/
def headPairs (st : Settings) : List (Key × QVariant) :=
  (["DHT Server", "dhtServerList", "size"], .int st.dhtServerList.length)
    :: (serverPairs 0 st.dhtServerList
      ++ [ (["General", "username"], .string st.username),
           (["General", "statusMessage"], .string st.statusMessage) ])

/-- Every pair `save` writes, in the order of the writes. -/
def savedPairs (st : Settings) : List (Key × QVariant) :=
  headPairs st ++ (windowPairs st.windowSettings (QHash.keys st.windowSettings) ++ guiPairs st)

/-- The number a list of decimal digit characters denotes. -/
def parseDecimal (cs : List Char) : Nat :=
  cs.foldl (fun acc c => acc * 10 + (c.toNat - 48)) 0

/-- An identifier that survives as a subgroup name: not empty and without a slash. -/
def plainName (name : String) : Prop :=
  name ≠ "" ∧ '/' ∉ name.data

instance (name : String) : Decidable (plainName name) := by
  unfold plainName
  infer_instance

/-- The store a fresh process builds after `st` has been saved over the files `fs`. -/
def roundTrip (q : Qt) (u : Uninitialised) (fs : FileSystem) (st : Settings) : Settings :=
  Settings.construct q u (st.save fs)

/-! ## Association lists -/

theorem lookup_update_self (k : String) (f : WindowSettings → WindowSettings) (h : QHash) :
    List.lookup k (QHash.update k f h) = some (f ((List.lookup k h).getD default)) := by
  induction h with
  | nil => simp [QHash.update, List.lookup]
  | cons e rest ih =>
    obtain ⟨k0, v⟩ := e
    by_cases hk : k0 = k
    · subst hk
      simp [QHash.update, List.lookup]
    · have hk2 : (k == k0) = false := by
        simpa using fun h2 => hk h2.symm
      simp [QHash.update, hk, List.lookup, hk2, ih]

theorem lookup_update_other (k j : String) (f : WindowSettings → WindowSettings) (h : QHash)
    (hj : j ≠ k) : List.lookup j (QHash.update k f h) = List.lookup j h := by
  induction h with
  | nil =>
    have hk2 : (j == k) = false := by simpa using hj
    simp [QHash.update, List.lookup, hk2]
  | cons e rest ih =>
    obtain ⟨k0, v⟩ := e
    by_cases hk : k0 = k
    · subst hk
      have hk2 : (j == k0) = false := by simpa using hj
      simp [QHash.update, List.lookup, hk2]
    · by_cases hj0 : j = k0
      · subst hj0
        simp [QHash.update, hk, List.lookup]
      · have hk2 : (j == k0) = false := by simpa using hj0
        simp [QHash.update, hk, List.lookup, hk2, ih]

theorem constFind_saveWindow (st : Settings) (window : QMainWindow) :
    QHash.constFind (st.saveWindow window).windowSettings window.objectName
      = some { geometry := window.geometry, state := window.state } := by
  simp [Settings.saveWindow, QHash.constFind, lookup_update_self, QMainWindow.saveGeometry,
    QMainWindow.saveState]

/-! ## Claims on the in-memory operations -/

/-- C3: once `load` has completed, a second `load` returns the store unchanged, whatever the
platform and the files are at the time of the second call, and the loaded flag is true. -/
theorem load_idempotent (q q2 : Qt) (fs fs2 : FileSystem) (st : Settings) :
    ((st.load q fs).load q2 fs2 = st.load q fs)
      ∧ ((st.load q fs).load q2 fs2).dhtServerList = (st.load q fs).dhtServerList
      ∧ (st.load q fs).loaded = true
      ∧ ((st.load q fs).load q2 fs2).loaded = true := by
  have hl : (st.load q fs).loaded = true := by
    unfold Settings.load
    by_cases h : st.loaded = true <;> simp [h]
  have h2 : (st.load q fs).load q2 fs2 = st.load q fs := by
    generalize st.load q fs = t at hl
    unfold Settings.load
    simp [hl]
  refine ⟨h2, ?_, hl, ?_⟩
  · rw [h2]
  · rw [h2]; exact hl

/-- C4: every call of `setDhtServerList` emits exactly `dhtServerListChanged`, every call of
`setSmileyPack` exactly `smileyPackChanged`, every call of `setCurstomEmojiFont`,
`setEmojiFontFamily` or `setEmojiFontPointSize` exactly `emojiFontChanged`, and
`setUsername`, `setStatusMessage`, `setEnableLogging`, `setEncryptLogs` emit nothing. -/
theorem setter_notifications (st : Settings) (l : List DhtServer) (b : Bool) (n : Int)
    (str : String) (blob : QByteArray) :
    (st.setDhtServerList l).2 = [Signal.dhtServerListChanged]
      ∧ (st.setSmileyPack blob).2 = [Signal.smileyPackChanged]
      ∧ (st.setCurstomEmojiFont b).2 = [Signal.emojiFontChanged]
      ∧ (st.setEmojiFontFamily str).2 = [Signal.emojiFontChanged]
      ∧ (st.setEmojiFontPointSize n).2 = [Signal.emojiFontChanged]
      ∧ (st.setUsername str).2 = []
      ∧ (st.setStatusMessage str).2 = []
      ∧ (st.setEnableLogging b).2 = []
      ∧ (st.setEncryptLogs b).2 = [] :=
  ⟨rfl, rfl, rfl, rfl, rfl, rfl, rfl, rfl, rfl⟩

/-- C9: each of the ten setters stores its argument as it is: the matching getter returns
the argument and the new store differs from the old one in that single field only. -/
theorem setters_assign (st : Settings) (l : List DhtServer) (b : Bool) (n : Int)
    (str : String) (blob : QByteArray) :
    ((st.setDhtServerList l).1.getDhtServerList = l
        ∧ (st.setDhtServerList l).1 = { st with dhtServerList := l })
      ∧ ((st.setUsername str).1.getUsername = str
        ∧ (st.setUsername str).1 = { st with username := str })
      ∧ ((st.setStatusMessage str).1.getStatusMessage = str
        ∧ (st.setStatusMessage str).1 = { st with statusMessage := str })
      ∧ ((st.setEnableLogging b).1.getEnableLogging = b
        ∧ (st.setEnableLogging b).1 = { st with enableLogging := b })
      ∧ ((st.setEncryptLogs b).1.getEncryptLogs = b
        ∧ (st.setEncryptLogs b).1 = { st with encryptLogs := b })
      ∧ ((st.setAnimationEnabled b).1.isAnimationEnabled = b
        ∧ (st.setAnimationEnabled b).1 = { st with enableSmoothAnimation := b })
      ∧ ((st.setSmileyPack blob).1.getSmileyPack = blob
        ∧ (st.setSmileyPack blob).1 = { st with smileyPack := blob })
      ∧ ((st.setCurstomEmojiFont b).1.isCurstomEmojiFont = b
        ∧ (st.setCurstomEmojiFont b).1 = { st with customEmojiFont := b })
      ∧ ((st.setEmojiFontPointSize n).1.getEmojiFontPointSize = n
        ∧ (st.setEmojiFontPointSize n).1 = { st with emojiFontPointSize := n })
      ∧ ((st.setEmojiFontFamily str).1.getEmojiFontFamily = str
        ∧ (st.setEmojiFontFamily str).1 = { st with emojiFontFamily := str }) :=
  ⟨⟨rfl, rfl⟩, ⟨rfl, rfl⟩, ⟨rfl, rfl⟩, ⟨rfl, rfl⟩, ⟨rfl, rfl⟩, ⟨rfl, rfl⟩, ⟨rfl, rfl⟩,
    ⟨rfl, rfl⟩, ⟨rfl, rfl⟩, ⟨rfl, rfl⟩⟩

/-- C5: after `saveWindow` the map holds, under the identifier of the window, exactly the
geometry and state blobs of the window; the lookup of every other identifier is what it was
before; and no other field of the store changes. -/
theorem saveWindow_isolated (st : Settings) (window : QMainWindow) :
    QHash.constFind (st.saveWindow window).windowSettings window.objectName
        = some { geometry := window.geometry, state := window.state }
      ∧ (∀ other : String, other ≠ window.objectName →
          QHash.constFind (st.saveWindow window).windowSettings other
            = QHash.constFind st.windowSettings other)
      ∧ st.saveWindow window
          = { st with windowSettings := (st.saveWindow window).windowSettings } := by
  refine ⟨constFind_saveWindow st window, ?_, rfl⟩
  · intro other ho
    simp [Settings.saveWindow, QHash.constFind, lookup_update_other _ _ _ _ ho]

/-- Witness for C5 (the frame part): the layout stored for `main` survives saving the
window `chat`. -/
theorem saveWindow_isolated_witness :
    QHash.constFind (exampleStore.saveWindow otherWindow).windowSettings "main"
      = QHash.constFind exampleStore.windowSettings "main" :=
  (saveWindow_isolated exampleStore otherWindow).2.1 "main" (by decide)

/-- C6: `loadWindow` leaves the window as it is when its identifier is not in the map, and
otherwise installs exactly the stored geometry and state blobs; after `saveWindow` of the
same window it re-applies the captured blobs; the store is returned unchanged. -/
theorem loadWindow_lookup (st : Settings) (window : QMainWindow) :
    (QHash.constFind st.windowSettings window.objectName = none →
        st.loadWindow window = (st, window))
      ∧ (∀ ws : WindowSettings,
          QHash.constFind st.windowSettings window.objectName = some ws →
          st.loadWindow window
            = (st, { window with geometry := ws.geometry, state := ws.state }))
      ∧ (∀ later : QMainWindow, later.objectName = window.objectName →
          ((st.saveWindow window).loadWindow later).2
            = { later with geometry := window.geometry, state := window.state })
      ∧ (st.loadWindow window).1 = st := by
  refine ⟨?_, ?_, ?_, ?_⟩
  · intro h
    simp [Settings.loadWindow, h]
  · intro ws h
    simp [Settings.loadWindow, h, QMainWindow.restoreGeometry, QMainWindow.restoreState]
  · intro later hl
    have h := constFind_saveWindow st window
    simp [Settings.loadWindow, hl, h, QMainWindow.restoreGeometry, QMainWindow.restoreState]
  · unfold Settings.loadWindow
    cases QHash.constFind st.windowSettings window.objectName <;> rfl

/-- Witness for C6: `chat` is unknown to `exampleStore` and `main` is known. -/
theorem loadWindow_lookup_witness :
    exampleStore.loadWindow otherWindow = (exampleStore, otherWindow)
      ∧ exampleStore.loadWindow exampleWindow
          = (exampleStore, { exampleWindow with geometry := [1, 2], state := [3] })
      ∧ ((exampleStore.saveWindow otherWindow).loadWindow otherWindow).2 = otherWindow :=
  ⟨(loadWindow_lookup exampleStore otherWindow).1 (by decide),
    (loadWindow_lookup exampleStore exampleWindow).2.1 { geometry := [1, 2], state := [3] }
      (by decide),
    (loadWindow_lookup exampleStore otherWindow).2.2.1 otherWindow rfl⟩

/-! ## Closed form of load -/

@[simp]
theorem normalizedKey_dht : normalizedKey "DHT Server" = ["DHT Server"] := by decide

@[simp]
theorem normalizedKey_list : normalizedKey "dhtServerList" = ["dhtServerList"] := by decide

@[simp]
theorem normalizedKey_general : normalizedKey "General" = ["General"] := by decide

@[simp]
theorem normalizedKey_window : normalizedKey "WindowSettings" = ["WindowSettings"] := by decide

@[simp]
theorem normalizedKey_gui : normalizedKey "GUI" = ["GUI"] := by decide

@[simp]
theorem normalizedKey_size : normalizedKey "size" = ["size"] := by decide

@[simp]
theorem normalizedKey_name : normalizedKey "name" = ["name"] := by decide

@[simp]
theorem normalizedKey_userId : normalizedKey "userId" = ["userId"] := by decide

@[simp]
theorem normalizedKey_address : normalizedKey "address" = ["address"] := by decide

@[simp]
theorem normalizedKey_port : normalizedKey "port" = ["port"] := by decide

@[simp]
theorem normalizedKey_username : normalizedKey "username" = ["username"] := by decide

@[simp]
theorem normalizedKey_statusMessage : normalizedKey "statusMessage" = ["statusMessage"] := by decide

@[simp]
theorem normalizedKey_geometry : normalizedKey "geometry" = ["geometry"] := by decide

@[simp]
theorem normalizedKey_state : normalizedKey "state" = ["state"] := by decide

@[simp]
theorem normalizedKey_smoothAnimation : normalizedKey "smoothAnimation" = ["smoothAnimation"] := by decide

@[simp]
theorem normalizedKey_smileyPack : normalizedKey "smileyPack" = ["smileyPack"] := by decide

@[simp]
theorem normalizedKey_customEmojiFont : normalizedKey "customEmojiFont" = ["customEmojiFont"] := by decide

@[simp]
theorem normalizedKey_emojiFontFamily : normalizedKey "emojiFontFamily" = ["emojiFontFamily"] := by decide

@[simp]
theorem normalizedKey_emojiFontPointSize : normalizedKey "emojiFontPointSize" = ["emojiFontPointSize"] := by decide

theorem loadServers_fold (q : Qt) (es : Entries) (rest : List QSettingsGroup) (name : Key)
    (n : Nat) (x : Int) (hx : x ≠ -1) (l0 : List DhtServer) :
    ∃ y : Int, y ≠ -1 ∧
      (List.range n).foldl (loadServerStep q)
          ({ entries := es, groupStack := { str := name, num := x } :: rest }, l0)
        = ({ entries := es, groupStack := { str := name, num := y } :: rest },
            l0 ++ (List.range n).map (fun (i : Nat) =>
              readServer q
                { entries := es, groupStack := { str := name, num := (i : Int) + 1 } :: rest })) := by
  induction n with
  | zero => exact ⟨x, hx, by simp⟩
  | succ n ih =>
    obtain ⟨y, hy, he⟩ := ih
    refine ⟨(n : Int) + 1, by omega, ?_⟩
    rw [List.range_succ, List.foldl_append, he]
    simp [loadServerStep, QSettings.setArrayIndex, hy, List.map_append]

theorem readServer_eq (q : Qt) (es : Entries) (i : Nat) :
    readServer q
        { entries := es
          groupStack := [{ str := ["dhtServerList"], num := (i : Int) + 1 },
            { str := ["DHT Server"], num := -1 }] }
      = serverAt q es i := by
  have h1 : (0 : Int) < (i : Int) + 1 := by omega
  have h2 : ((i : Int) + 1).toNat = i + 1 := by omega
  simp [readServer, serverAt, entryAt, QSettings.value, QSettings.actualKey, groupPath,
    QSettingsGroup.toKey, h1, h2]

theorem loadWindows_fold (q : Qt) (es : Entries) (names : List String) (h : QHash) :
    names.foldl (loadWindowStep q)
        ({ entries := es, groupStack := [{ str := ["WindowSettings"], num := -1 }] }, h)
      = ({ entries := es, groupStack := [{ str := ["WindowSettings"], num := -1 }] },
          names.foldl (fun h name => assignWindow name (windowAt q es name) h) h) := by
  induction names generalizing h with
  | nil => rfl
  | cons a rest ih =>
    simp only [List.foldl_cons]
    rw [← ih]
    congr 1

theorem load_eq (q : Qt) (fs : FileSystem) (st : Settings) (h : st.loaded = false) :
    st.load q fs = loadedFrom q fs.readable st := by
  obtain ⟨y, hy, he⟩ := loadServers_fold q fs.readable [{ str := ["DHT Server"], num := -1 }]
    ["dhtServerList"] (serverCount q fs.readable) 0 (by decide) st.dhtServerList
  have hsize : (QSettings.beginReadArray q
      (QSettings.beginGroup { entries := fs.readable, groupStack := [] } "DHT Server")
      "dhtServerList")
      = (((entryAt fs.readable ["DHT Server", "dhtServerList", "size"] .invalid).toInt q),
          { entries := fs.readable
            groupStack := [{ str := ["dhtServerList"], num := 0 },
              { str := ["DHT Server"], num := -1 }] }) := by
    simp [QSettings.beginReadArray, QSettings.beginGroup, QSettings.value, QSettings.actualKey,
      groupPath, QSettingsGroup.toKey, entryAt]
  unfold Settings.load
  simp only [h, Bool.false_eq_true, if_false]
  rw [hsize]
  simp only []
  have hc : ((entryAt fs.readable ["DHT Server", "dhtServerList", "size"] .invalid).toInt q).toNat
      = serverCount q fs.readable := rfl
  rw [hc, he]
  simp only [readServer_eq]
  have hw := loadWindows_fold q fs.readable (windowGroups fs.readable) st.windowSettings
  have hg : (QSettings.beginGroup (QSettings.endGroup (QSettings.beginGroup
      (QSettings.endGroup (QSettings.endArray
        { entries := fs.readable
          groupStack := [{ str := ["dhtServerList"], num := y },
            { str := ["DHT Server"], num := -1 }] })) "General")) "WindowSettings")
      = { entries := fs.readable, groupStack := [{ str := ["WindowSettings"], num := -1 }] } := by
    simp [QSettings.beginGroup, QSettings.endGroup, QSettings.endArray]
  rw [hg]
  have hcg : QSettings.childGroups
      { entries := fs.readable, groupStack := [{ str := ["WindowSettings"], num := -1 }] }
      = windowGroups fs.readable := by
    simp [QSettings.childGroups, windowGroups, groupPath, QSettingsGroup.toKey]
  rw [hcg, hw]
  simp [loadedFrom, QSettings.beginGroup, QSettings.endGroup, QSettings.endArray,
    QSettings.value, QSettings.actualKey, groupPath, QSettingsGroup.toKey, entryAt]

theorem construct_eq (q : Qt) (u : Uninitialised) (fs : FileSystem) :
    Settings.construct q u fs = loadedFrom q fs.readable (Settings.initial u) :=
  load_eq q fs (Settings.initial u) rfl

theorem getD_elim_toString (q : Qt) (o : Option QVariant) (d : String) :
    ((o.getD (.string d)).toString q) = o.elim d (QVariant.toString q) := by
  cases o <;> rfl

theorem getD_elim_toBool (q : Qt) (o : Option QVariant) (d : Bool) :
    ((o.getD (.bool d)).toBool q) = o.elim d (QVariant.toBool q) := by
  cases o <;> rfl

theorem getD_elim_toInt (q : Qt) (o : Option QVariant) (d : Int) :
    ((o.getD (.int d)).toInt q) = o.elim d (QVariant.toInt q) := by
  cases o <;> rfl

theorem getD_elim_toByteArray (q : Qt) (o : Option QVariant) :
    ((o.getD .invalid).toByteArray q) = o.elim [] (QVariant.toByteArray q) := by
  cases o <;> rfl

/-! ## Claims on load -/

/-- C2: a freshly constructed store that reads a configuration without keys holds the
hard-coded defaults, an empty server list and an empty window map; and for every
configuration each scalar field is the conversion of the value stored under its key when the
key is present and its default when the key is absent (`load` is a total function). -/
theorem load_defaults (q : Qt) (u : Uninitialised) (fs : FileSystem) :
    (fs.readable = [] →
        (Settings.construct q u fs).getUsername = "My name"
          ∧ (Settings.construct q u fs).getStatusMessage = "My status"
          ∧ (Settings.construct q u fs).isAnimationEnabled = true
          ∧ (Settings.construct q u fs).isCurstomEmojiFont = true
          ∧ (Settings.construct q u fs).getEmojiFontFamily = "DejaVu Sans"
          ∧ (Settings.construct q u fs).getEmojiFontPointSize = q.fontPointSize
          ∧ (Settings.construct q u fs).getSmileyPack = []
          ∧ (Settings.construct q u fs).getDhtServerList = []
          ∧ (Settings.construct q u fs).windowSettings = [])
      ∧ (Settings.construct q u fs).getUsername
          = (fs.readable.lookup ["General", "username"]).elim "My name" (QVariant.toString q)
      ∧ (Settings.construct q u fs).getStatusMessage
          = (fs.readable.lookup ["General", "statusMessage"]).elim "My status"
              (QVariant.toString q)
      ∧ (Settings.construct q u fs).isAnimationEnabled
          = (fs.readable.lookup ["GUI", "smoothAnimation"]).elim true (QVariant.toBool q)
      ∧ (Settings.construct q u fs).getSmileyPack
          = (fs.readable.lookup ["GUI", "smileyPack"]).elim [] (QVariant.toByteArray q)
      ∧ (Settings.construct q u fs).isCurstomEmojiFont
          = (fs.readable.lookup ["GUI", "customEmojiFont"]).elim true (QVariant.toBool q)
      ∧ (Settings.construct q u fs).getEmojiFontFamily
          = (fs.readable.lookup ["GUI", "emojiFontFamily"]).elim "DejaVu Sans"
              (QVariant.toString q)
      ∧ (Settings.construct q u fs).getEmojiFontPointSize
          = (fs.readable.lookup ["GUI", "emojiFontPointSize"]).elim q.fontPointSize
              (QVariant.toInt q) := by
  rw [construct_eq]
  refine ⟨?_, ?_, ?_, ?_, ?_, ?_, ?_, ?_⟩
  · intro h
    rw [h]
    simp [loadedFrom, entryAt, serverCount, windowGroups, Settings.initial, QVariant.toString,
      QVariant.toBool, QVariant.toInt, QVariant.toByteArray, Settings.getUsername,
      Settings.getStatusMessage, Settings.isAnimationEnabled, Settings.isCurstomEmojiFont,
      Settings.getEmojiFontFamily, Settings.getEmojiFontPointSize, Settings.getSmileyPack,
      Settings.getDhtServerList]
  · exact getD_elim_toString q _ _
  · exact getD_elim_toString q _ _
  · exact getD_elim_toBool q _ _
  · exact getD_elim_toByteArray q _
  · exact getD_elim_toBool q _ _
  · exact getD_elim_toString q _ _
  · exact getD_elim_toInt q _ _

/-- Witness for C2: no user file and an empty bundled file. -/
theorem load_defaults_witness :
    (Settings.construct exampleQt zeroStorage emptyFileSystem).getUsername = "My name"
      ∧ (Settings.construct exampleQt zeroStorage emptyFileSystem).getStatusMessage = "My status"
      ∧ (Settings.construct exampleQt zeroStorage emptyFileSystem).isAnimationEnabled = true
      ∧ (Settings.construct exampleQt zeroStorage emptyFileSystem).isCurstomEmojiFont = true
      ∧ (Settings.construct exampleQt zeroStorage emptyFileSystem).getEmojiFontFamily
          = "DejaVu Sans"
      ∧ (Settings.construct exampleQt zeroStorage emptyFileSystem).getEmojiFontPointSize
          = exampleQt.fontPointSize
      ∧ (Settings.construct exampleQt zeroStorage emptyFileSystem).getSmileyPack = []
      ∧ (Settings.construct exampleQt zeroStorage emptyFileSystem).getDhtServerList = []
      ∧ (Settings.construct exampleQt zeroStorage emptyFileSystem).windowSettings = [] :=
  (load_defaults exampleQt zeroStorage emptyFileSystem).1 (by decide)

/-- C8 as stated fails: a store built in zero-filled storage reports `getEncryptLogs` false
after `load`, not true. -/
theorem logging_defaults_counterexample :
    ¬ ((Settings.construct exampleQt zeroStorage emptyFileSystem).getEnableLogging = false
        ∧ (Settings.construct exampleQt zeroStorage emptyFileSystem).getEncryptLogs = true) := by
  decide

/-- C8 amended: `load` never assigns the logging flags; after construction the two getters
return what the members held before `load` ran, for every configuration. -/
theorem logging_flags_untouched (q : Qt) (u : Uninitialised) (fs : FileSystem) (st : Settings) :
    (Settings.construct q u fs).getEnableLogging = u.enableLogging
      ∧ (Settings.construct q u fs).getEncryptLogs = u.encryptLogs
      ∧ (st.load q fs).getEnableLogging = st.getEnableLogging
      ∧ (st.load q fs).getEncryptLogs = st.getEncryptLogs := by
  refine ⟨by rw [construct_eq]; rfl, by rw [construct_eq]; rfl, ?_, ?_⟩
  · cases h : st.loaded
    · rw [load_eq q fs st h]; rfl
    · simp [Settings.load, h]
  · cases h : st.loaded
    · rw [load_eq q fs st h]; rfl
    · simp [Settings.load, h]

/-! ## Claims on save -/

theorem saveEntries_old (st : Settings) (old : Entries) :
    st.saveEntries old = st.saveEntries [] := rfl

/-- C7: the user file after `save` does not depend on what the file held before; a key that
`save` does not write is absent afterwards. -/
theorem save_overwrites (st : Settings) (fs1 fs2 : FileSystem) (old : Entries) :
    (st.save fs1).userFile = (st.save fs2).userFile
      ∧ st.saveEntries old = st.saveEntries []
      ∧ (∀ k : Key, (st.saveEntries []).lookup k = none → (st.saveEntries old).lookup k = none) := by
  refine ⟨?_, saveEntries_old st old, ?_⟩
  · simp only [Settings.save]
    rw [saveEntries_old st (fs1.userFile.getD []), saveEntries_old st (fs2.userFile.getD [])]
  · intro k hk
    rw [saveEntries_old st old]
    exact hk

/-- Witness for C7: the stale window subgroup, the stale server entry and the unknown
section of `staleFile` are gone after `save`. -/
theorem save_overwrites_witness :
    (exampleStore.saveEntries staleFile).lookup ["WindowSettings", "gone", "geometry"] = none
      ∧ (exampleStore.saveEntries staleFile).lookup ["DHT Server", "dhtServerList", "5", "name"]
          = none
      ∧ (exampleStore.saveEntries staleFile).lookup ["Unknown", "key"] = none :=
  ⟨(save_overwrites exampleStore emptyFileSystem emptyFileSystem staleFile).2.2 _ (by decide),
    (save_overwrites exampleStore emptyFileSystem emptyFileSystem staleFile).2.2 _ (by decide),
    (save_overwrites exampleStore emptyFileSystem emptyFileSystem staleFile).2.2 _ (by decide)⟩

/-! ## Closed form of save -/

theorem writeAll_append (ps qs : List (Key × QVariant)) (es : Entries) :
    writeAll (ps ++ qs) es = writeAll qs (writeAll ps es) := by
  simp [writeAll, List.foldl_append]

theorem writeAll_cons (p : Key × QVariant) (ps : List (Key × QVariant)) (es : Entries) :
    writeAll (p :: ps) es = writeAll ps (setEntry p.1 p.2 es) := rfl

theorem writeAll_nil (es : Entries) : writeAll [] es = es := rfl

theorem saveServers_eq (l : List DhtServer) (i : Nat) (es : Entries) (x : Int) (hx : x ≠ -1) :
    ∃ y : Int, y ≠ -1 ∧
      saveServers i l
          { entries := es
            groupStack := [{ str := ["dhtServerList"], num := x },
              { str := ["DHT Server"], num := -1 }] }
        = { entries := writeAll (serverPairs i l) es
            groupStack := [{ str := ["dhtServerList"], num := y },
              { str := ["DHT Server"], num := -1 }] } := by
  induction l generalizing i es x with
  | nil => exact ⟨x, hx, rfl⟩
  | cons sv rest ih =>
    have h1 : (0 : Int) < (i : Int) + 1 := by omega
    have h2 : ((i : Int) + 1).toNat = i + 1 := by omega
    obtain ⟨y, hy, he⟩ := ih (i + 1)
      (writeAll (pairsOfServer i sv) es) ((i : Int) + 1) (by omega)
    refine ⟨y, hy, ?_⟩
    rw [serverPairs, writeAll_append, ← he]
    simp [saveServers, QSettings.setArrayIndex, hx, QSettings.setValue, QSettings.actualKey,
      groupPath, QSettingsGroup.toKey, h1, h2, writeAll, pairsOfServer]

theorem saveWindows_eq (h : QHash) (names : List String) (es : Entries) :
    names.foldl (saveWindowStep h)
        { entries := es, groupStack := [{ str := ["WindowSettings"], num := -1 }] }
      = { entries := writeAll (windowPairs h names) es
          groupStack := [{ str := ["WindowSettings"], num := -1 }] } := by
  induction names generalizing es with
  | nil => rfl
  | cons a rest ih =>
    rw [List.foldl_cons, windowPairs, writeAll_append, ← ih]
    simp [saveWindowStep, QSettings.beginGroup, QSettings.endGroup, QSettings.setValue,
      QSettings.actualKey, groupPath, QSettingsGroup.toKey, writeAll, pairsOfWindow]

theorem saveEntries_eq (st : Settings) (old : Entries) :
    st.saveEntries old = writeAll (savedPairs st) [] := by
  obtain ⟨y, hy, he⟩ := saveServers_eq st.dhtServerList 0
    (writeAll [(["DHT Server", "dhtServerList", "size"], .int st.dhtServerList.length)] [])
    0 (by decide)
  have hb : QSettings.beginWriteArray
      (QSettings.beginGroup (QSettings.clear { entries := old, groupStack := [] }) "DHT Server")
      "dhtServerList" st.dhtServerList.length
      = { entries :=
            writeAll [(["DHT Server", "dhtServerList", "size"], .int st.dhtServerList.length)] []
          groupStack := [{ str := ["dhtServerList"], num := 0 },
            { str := ["DHT Server"], num := -1 }] } := by
    simp [QSettings.beginWriteArray, QSettings.beginGroup, QSettings.clear, QSettings.setValue,
      QSettings.actualKey, groupPath, QSettingsGroup.toKey, writeAll]
  unfold Settings.saveEntries
  simp only []
  rw [hb, he]
  have hg : QSettings.beginGroup (QSettings.endGroup (QSettings.setValue (QSettings.setValue
      (QSettings.beginGroup (QSettings.endGroup (QSettings.endArray
        { entries := writeAll (serverPairs 0 st.dhtServerList)
            (writeAll
              [(["DHT Server", "dhtServerList", "size"], .int st.dhtServerList.length)] [])
          groupStack := [{ str := ["dhtServerList"], num := y },
            { str := ["DHT Server"], num := -1 }] })) "General")
      "username" (.string st.username)) "statusMessage" (.string st.statusMessage)))
      "WindowSettings"
      = { entries := writeAll (headPairs st) []
          groupStack := [{ str := ["WindowSettings"], num := -1 }] } := by
    simp [QSettings.beginGroup, QSettings.endGroup, QSettings.endArray, QSettings.setValue,
      QSettings.actualKey, groupPath, QSettingsGroup.toKey, headPairs, writeAll,
      List.foldl_append]
  rw [hg, saveWindows_eq]
  simp [QSettings.beginGroup, QSettings.endGroup, QSettings.setValue, QSettings.actualKey,
    groupPath, QSettingsGroup.toKey, savedPairs, guiPairs, writeAll, List.foldl_append]

/-! ## Lookups in a written table -/

theorem lookup_filter_ne (k j : Key) (es : Entries) (hj : j ≠ k) :
    List.lookup j (es.filter (fun e => !(e.1 == k))) = List.lookup j es := by
  induction es with
  | nil => rfl
  | cons e rest ih =>
    obtain ⟨k0, v⟩ := e
    by_cases h0 : k0 = k
    · subst h0
      have hb : (j == k0) = false := by simpa using hj
      simp [List.filter, List.lookup, hb, ih]
    · have hf : (!(k0 == k)) = true := by simpa using h0
      by_cases hj0 : j = k0
      · subst hj0
        simp [List.filter, hf, List.lookup]
      · have hb : (j == k0) = false := by simpa using hj0
        simp [List.filter, hf, List.lookup, hb, ih]

theorem lookup_setEntry_self (k : Key) (v : QVariant) (es : Entries) :
    List.lookup k (setEntry k v es) = some v := by
  simp [setEntry, List.lookup]

theorem lookup_setEntry_ne (k j : Key) (v : QVariant) (es : Entries) (hj : j ≠ k) :
    List.lookup j (setEntry k v es) = List.lookup j es := by
  have hb : (j == k) = false := by simpa using hj
  simp only [setEntry, List.lookup, hb]
  exact lookup_filter_ne k j es hj

theorem lookup_writeAll_not_mem (ps : List (Key × QVariant)) (es : Entries) (j : Key)
    (hj : j ∉ ps.map Prod.fst) : List.lookup j (writeAll ps es) = List.lookup j es := by
  induction ps generalizing es with
  | nil => rfl
  | cons p rest ih =>
    simp only [List.map_cons, List.mem_cons, not_or] at hj
    rw [writeAll_cons, ih _ hj.2, lookup_setEntry_ne _ _ _ _ hj.1]

theorem mem_keys_setEntry (k j : Key) (v : QVariant) (es : Entries) :
    j ∈ (setEntry k v es).map Prod.fst ↔ j = k ∨ j ∈ es.map Prod.fst := by
  simp only [setEntry, List.map_cons, List.mem_cons, List.mem_map, List.mem_filter]
  constructor
  · rintro (h | ⟨e, ⟨he, _⟩, rfl⟩)
    · exact Or.inl h
    · exact Or.inr ⟨e, he, rfl⟩
  · rintro (h | ⟨e, he, rfl⟩)
    · exact Or.inl h
    · by_cases hk : e.1 = k
      · exact Or.inl hk
      · exact Or.inr ⟨e, ⟨he, by simpa using hk⟩, rfl⟩

theorem mem_keys_writeAll (ps : List (Key × QVariant)) (es : Entries) (j : Key) :
    j ∈ (writeAll ps es).map Prod.fst ↔ j ∈ ps.map Prod.fst ∨ j ∈ es.map Prod.fst := by
  induction ps generalizing es with
  | nil =>
    rw [writeAll_nil]
    constructor
    · exact Or.inr
    · rintro (h | h)
      · cases h
      · exact h
  | cons p rest ih =>
    rw [writeAll_cons, ih, mem_keys_setEntry]
    rw [List.map_cons, List.mem_cons]
    constructor
    · rintro (h | h | h)
      · exact Or.inl (Or.inr h)
      · exact Or.inl (Or.inl h)
      · exact Or.inr h
    · rintro ((h | h) | h)
      · exact Or.inr (Or.inl h)
      · exact Or.inl h
      · exact Or.inr (Or.inr h)

/-! ## Decimal numbers and plain names -/

theorem digitChar_value (n : Nat) (h : n < 10) : (Nat.digitChar n).toNat - 48 = n := by
  interval_cases n <;> rfl

theorem parseDecimal_append (cs : List Char) (c : Char) :
    parseDecimal (cs ++ [c]) = parseDecimal cs * 10 + (c.toNat - 48) := by
  simp [parseDecimal, List.foldl_append]

theorem parseDecimal_decimalAux (fuel n : Nat) (h : n < fuel) :
    parseDecimal (decimalAux fuel n) = n := by
  induction fuel generalizing n with
  | zero => omega
  | succ fuel ih =>
    unfold decimalAux
    by_cases h10 : n < 10
    · simp only [h10, if_true]
      simpa [parseDecimal] using digitChar_value n h10
    · simp only [h10, if_false]
      rw [parseDecimal_append, ih (n / 10) (by omega), digitChar_value _ (Nat.mod_lt _ (by omega))]
      omega

theorem number_injective (a b : Nat) (h : number a = number b) : a = b := by
  have h2 : decimalAux (a + 1) a = decimalAux (b + 1) b := by
    exact congrArg String.data h
  have h3 := congrArg parseDecimal h2
  rwa [parseDecimal_decimalAux _ _ (by omega), parseDecimal_decimalAux _ _ (by omega)] at h3

theorem segments_plain (cs : List Char) (h : '/' ∉ cs) : segments cs = [cs] := by
  induction cs with
  | nil => rfl
  | cons c rest ih =>
    simp only [List.mem_cons, not_or] at h
    have hc : ¬ c = '/' := fun hc => h.1 hc.symm
    simp [segments, hc, ih h.2]

theorem normalizedKey_plain (name : String) (h : plainName name) :
    normalizedKey name = [name] := by
  obtain ⟨hne, hs⟩ := h
  have hd : name.data ≠ [] := by
    intro hd
    apply hne
    cases name
    simp_all
  simp [normalizedKey, segments_plain _ hs, List.filter, hd]

/-! ## The keys save writes -/

theorem key_pairsOfServer (i : Nat) (sv : DhtServer) (kv : Key × QVariant)
    (h : kv ∈ pairsOfServer i sv) :
    ∃ f : String, kv.1 = ["DHT Server", "dhtServerList", number (i + 1), f] := by
  simp only [pairsOfServer, List.mem_cons, List.mem_singleton, List.not_mem_nil, or_false] at h
  rcases h with rfl | rfl | rfl | rfl
  · exact ⟨"name", rfl⟩
  · exact ⟨"userId", rfl⟩
  · exact ⟨"address", rfl⟩
  · exact ⟨"port", rfl⟩

theorem mem_serverPairs (l : List DhtServer) (i : Nat) (k : Key)
    (hk : k ∈ (serverPairs i l).map Prod.fst) :
    ∃ m : Nat, ∃ f : String, i ≤ m ∧ k = ["DHT Server", "dhtServerList", number (m + 1), f] := by
  induction l generalizing i with
  | nil => cases hk
  | cons sv rest ih =>
    rw [serverPairs, List.map_append, List.mem_append] at hk
    rcases hk with hk | hk
    · obtain ⟨kv, hkv, rfl⟩ := List.mem_map.mp hk
      obtain ⟨f, hf⟩ := key_pairsOfServer i sv kv hkv
      exact ⟨i, f, le_refl i, hf⟩
    · obtain ⟨m, f, hm, hf⟩ := ih (i + 1) hk
      exact ⟨m, f, by omega, hf⟩

theorem mem_windowPairs (h : QHash) (names : List String) (k : Key)
    (hk : k ∈ (windowPairs h names).map Prod.fst) :
    ∃ name : String, ∃ f : String,
      name ∈ names ∧ k = "WindowSettings" :: (normalizedKey name ++ [f]) := by
  induction names with
  | nil => cases hk
  | cons a rest ih =>
    rw [windowPairs, List.map_append, List.mem_append] at hk
    rcases hk with hk | hk
    · simp only [pairsOfWindow, List.map_cons, List.map_nil, List.mem_cons, List.mem_singleton,
        List.not_mem_nil, or_false] at hk
      rcases hk with rfl | rfl
      · exact ⟨a, "geometry", List.mem_cons_self _ _, rfl⟩
      · exact ⟨a, "state", List.mem_cons_self _ _, rfl⟩
    · obtain ⟨name, f, hn, hf⟩ := ih hk
      exact ⟨name, f, List.mem_cons_of_mem _ hn, hf⟩

theorem geometry_mem_windowPairs (h : QHash) (names : List String) (name : String)
    (hn : name ∈ names) :
    ("WindowSettings" :: (normalizedKey name ++ ["geometry"]))
      ∈ (windowPairs h names).map Prod.fst := by
  induction names with
  | nil => cases hn
  | cons a rest ih =>
    rw [windowPairs, List.map_append, List.mem_append]
    rcases List.mem_cons.mp hn with rfl | hr
    · left
      simp [pairsOfWindow]
    · exact Or.inr (ih hr)

theorem head_guiPairs (st : Settings) (k : Key) (hk : k ∈ (guiPairs st).map Prod.fst) :
    k.head? = some "GUI" := by
  simp only [guiPairs, List.map_cons, List.map_nil, List.mem_cons, List.mem_singleton,
    List.not_mem_nil, or_false] at hk
  rcases hk with rfl | rfl | rfl | rfl | rfl <;> rfl

theorem head_windowPairs (h : QHash) (names : List String) (k : Key)
    (hk : k ∈ (windowPairs h names).map Prod.fst) : k.head? = some "WindowSettings" := by
  obtain ⟨name, f, _, rfl⟩ := mem_windowPairs h names k hk
  rfl

theorem head_headPairs (st : Settings) (k : Key) (hk : k ∈ (headPairs st).map Prod.fst) :
    k.head? = some "DHT Server" ∨ k.head? = some "General" := by
  rw [headPairs, List.map_cons, List.mem_cons, List.map_append, List.mem_append] at hk
  rcases hk with rfl | hk | hk
  · exact Or.inl rfl
  · obtain ⟨m, f, _, rfl⟩ := mem_serverPairs _ _ _ hk
    exact Or.inl rfl
  · simp only [List.map_cons, List.map_nil, List.mem_cons, List.mem_singleton,
      List.not_mem_nil, or_false] at hk
    rcases hk with rfl | rfl <;> exact Or.inr rfl

/-! ## Lookups in the saved table -/

theorem lookup_saved_head (st : Settings) (k : Key)
    (hk : k.head? = some "DHT Server" ∨ k.head? = some "General") :
    List.lookup k (writeAll (savedPairs st) []) = List.lookup k (writeAll (headPairs st) []) := by
  rw [savedPairs, writeAll_append]
  apply lookup_writeAll_not_mem
  rw [List.map_append, List.mem_append]
  rintro (hm | hm)
  · have := head_windowPairs _ _ _ hm
    rcases hk with hk | hk <;> simp [hk] at this
  · have := head_guiPairs _ _ hm
    rcases hk with hk | hk <;> simp [hk] at this

theorem lookup_saved_window (st : Settings) (k : Key) (hk : k.head? = some "WindowSettings") :
    List.lookup k (writeAll (savedPairs st) [])
      = List.lookup k (writeAll (windowPairs st.windowSettings (QHash.keys st.windowSettings))
          (writeAll (headPairs st) [])) := by
  rw [savedPairs, writeAll_append, writeAll_append]
  apply lookup_writeAll_not_mem
  intro hm
  have := head_guiPairs _ _ hm
  simp [hk] at this

theorem lookup_serverPairs (l : List DhtServer) (i j : Nat) (es : Entries) (sv : DhtServer)
    (h : l[j]? = some sv) (kv : Key × QVariant) (hkv : kv ∈ pairsOfServer (i + j) sv) :
    List.lookup kv.1 (writeAll (serverPairs i l) es) = some kv.2 := by
  induction l generalizing i j es with
  | nil => simp at h
  | cons a rest ih =>
    rw [serverPairs, writeAll_append]
    cases j with
    | zero =>
      simp only [List.getElem?_cons_zero, Option.some.injEq] at h
      subst h
      rw [Nat.add_zero] at hkv
      have hnot : kv.1 ∉ (serverPairs (i + 1) rest).map Prod.fst := by
        intro hm
        obtain ⟨m, f, hm1, hm2⟩ := mem_serverPairs _ _ _ hm
        obtain ⟨g, hg⟩ := key_pairsOfServer _ _ _ hkv
        rw [hg] at hm2
        have h3 : number (i + 1) = number (m + 1) := by
          simp only [List.cons.injEq, true_and] at hm2
          exact hm2.1
        have := number_injective _ _ h3
        omega
      rw [lookup_writeAll_not_mem _ _ _ hnot]
      simp only [pairsOfServer, List.mem_cons, List.mem_singleton, List.not_mem_nil, or_false]
        at hkv
      rcases hkv with rfl | rfl | rfl | rfl
      · rw [pairsOfServer, writeAll_cons, writeAll_cons, writeAll_cons, writeAll_cons,
          writeAll_nil, lookup_setEntry_ne _ _ _ _ (by simp), lookup_setEntry_ne _ _ _ _ (by simp),
          lookup_setEntry_ne _ _ _ _ (by simp), lookup_setEntry_self]
      · rw [pairsOfServer, writeAll_cons, writeAll_cons, writeAll_cons, writeAll_cons,
          writeAll_nil, lookup_setEntry_ne _ _ _ _ (by simp), lookup_setEntry_ne _ _ _ _ (by simp),
          lookup_setEntry_self]
      · rw [pairsOfServer, writeAll_cons, writeAll_cons, writeAll_cons, writeAll_cons,
          writeAll_nil, lookup_setEntry_ne _ _ _ _ (by simp), lookup_setEntry_self]
      · rw [pairsOfServer, writeAll_cons, writeAll_cons, writeAll_cons, writeAll_cons,
          writeAll_nil, lookup_setEntry_self]
    | succ j =>
      simp only [List.getElem?_cons_succ] at h
      have e : i + (j + 1) = i + 1 + j := by omega
      rw [e] at hkv
      exact ih (i + 1) j _ h hkv

theorem lookup_saved_server (st : Settings) (j : Nat) (sv : DhtServer)
    (h : st.dhtServerList[j]? = some sv) (kv : Key × QVariant) (hkv : kv ∈ pairsOfServer j sv) :
    List.lookup kv.1 (writeAll (savedPairs st) []) = some kv.2 := by
  obtain ⟨f, hf⟩ := key_pairsOfServer _ _ _ hkv
  rw [lookup_saved_head st kv.1 (Or.inl (by rw [hf]; rfl)), headPairs, writeAll_cons,
    writeAll_append, lookup_writeAll_not_mem _ _ _ (by rw [hf]; simp)]
  exact lookup_serverPairs _ 0 j _ sv h kv (by rwa [Nat.zero_add])

theorem serverAt_saved (q : Qt) (st : Settings) (j : Nat) (sv : DhtServer)
    (h : st.dhtServerList[j]? = some sv) :
    serverAt q (writeAll (savedPairs st) []) j = sv := by
  have h1 := lookup_saved_server st j sv h
    (["DHT Server", "dhtServerList", number (j + 1), "name"], .string sv.name)
    (by simp [pairsOfServer])
  have h2 := lookup_saved_server st j sv h
    (["DHT Server", "dhtServerList", number (j + 1), "userId"], .string sv.userId)
    (by simp [pairsOfServer])
  have h3 := lookup_saved_server st j sv h
    (["DHT Server", "dhtServerList", number (j + 1), "address"], .string sv.address)
    (by simp [pairsOfServer])
  have h4 := lookup_saved_server st j sv h
    (["DHT Server", "dhtServerList", number (j + 1), "port"], .int sv.port)
    (by simp [pairsOfServer])
  simp only [] at h1 h2 h3 h4
  simp only [serverAt, entryAt, h1, h2, h3, h4, Option.getD_some, QVariant.toString,
    QVariant.toInt]

theorem lookup_saved_size (st : Settings) :
    List.lookup ["DHT Server", "dhtServerList", "size"] (writeAll (savedPairs st) [])
      = some (.int st.dhtServerList.length) := by
  rw [lookup_saved_head st ["DHT Server", "dhtServerList", "size"] (Or.inl rfl), headPairs,
    writeAll_cons, writeAll_append,
    lookup_writeAll_not_mem _ _ _ (by simp), lookup_writeAll_not_mem, lookup_setEntry_self]
  intro hm
  obtain ⟨m, f, _, hf⟩ := mem_serverPairs _ _ _ hm
  simp at hf

theorem servers_saved (q : Qt) (st : Settings) :
    (List.range (serverCount q (writeAll (savedPairs st) []))).map
        (serverAt q (writeAll (savedPairs st) []))
      = st.dhtServerList := by
  have hc : serverCount q (writeAll (savedPairs st) []) = st.dhtServerList.length := by
    simp [serverCount, entryAt, lookup_saved_size, QVariant.toInt]
  rw [hc]
  apply List.ext_getElem?
  intro n
  rw [List.getElem?_map]
  by_cases hn : n < st.dhtServerList.length
  · rw [List.getElem?_range hn, List.getElem?_eq_getElem hn]
    simp only [Option.map_some', Option.some.injEq]
    exact serverAt_saved q st n _ (List.getElem?_eq_getElem hn)
  · have h1 : (List.range st.dhtServerList.length)[n]? = none := by
      apply List.getElem?_eq_none
      simpa using hn
    have h2 : st.dhtServerList[n]? = none := by
      apply List.getElem?_eq_none
      simpa using hn
    rw [h1, h2]
    rfl

theorem lookup_saved_general (st : Settings) :
    List.lookup ["General", "username"] (writeAll (savedPairs st) []) = some (.string st.username)
      ∧ List.lookup ["General", "statusMessage"] (writeAll (savedPairs st) [])
          = some (.string st.statusMessage) := by
  constructor
  · rw [lookup_saved_head st ["General", "username"] (Or.inr rfl), headPairs, writeAll_cons,
      writeAll_append,
      writeAll_cons, writeAll_cons, writeAll_nil, lookup_setEntry_ne _ _ _ _ (by simp),
      lookup_setEntry_self]
  · rw [lookup_saved_head st ["General", "statusMessage"] (Or.inr rfl), headPairs,
      writeAll_cons, writeAll_append,
      writeAll_cons, writeAll_cons, writeAll_nil, lookup_setEntry_self]

theorem lookup_saved_gui (st : Settings) :
    List.lookup ["GUI", "smoothAnimation"] (writeAll (savedPairs st) [])
        = some (.bool st.enableSmoothAnimation)
      ∧ List.lookup ["GUI", "smileyPack"] (writeAll (savedPairs st) [])
          = some (.byteArray st.smileyPack)
      ∧ List.lookup ["GUI", "customEmojiFont"] (writeAll (savedPairs st) [])
          = some (.bool st.customEmojiFont)
      ∧ List.lookup ["GUI", "emojiFontFamily"] (writeAll (savedPairs st) [])
          = some (.string st.emojiFontFamily)
      ∧ List.lookup ["GUI", "emojiFontPointSize"] (writeAll (savedPairs st) [])
          = some (.int st.emojiFontPointSize) := by
  refine ⟨?_, ?_, ?_, ?_, ?_⟩
  · rw [savedPairs, writeAll_append, writeAll_append, guiPairs, writeAll_cons, writeAll_cons,
      writeAll_cons, writeAll_cons, writeAll_cons, writeAll_nil,
      lookup_setEntry_ne _ _ _ _ (by simp), lookup_setEntry_ne _ _ _ _ (by simp),
      lookup_setEntry_ne _ _ _ _ (by simp), lookup_setEntry_ne _ _ _ _ (by simp),
      lookup_setEntry_self]
  · rw [savedPairs, writeAll_append, writeAll_append, guiPairs, writeAll_cons, writeAll_cons,
      writeAll_cons, writeAll_cons, writeAll_cons, writeAll_nil,
      lookup_setEntry_ne _ _ _ _ (by simp), lookup_setEntry_ne _ _ _ _ (by simp),
      lookup_setEntry_ne _ _ _ _ (by simp), lookup_setEntry_self]
  · rw [savedPairs, writeAll_append, writeAll_append, guiPairs, writeAll_cons, writeAll_cons,
      writeAll_cons, writeAll_cons, writeAll_cons, writeAll_nil,
      lookup_setEntry_ne _ _ _ _ (by simp), lookup_setEntry_ne _ _ _ _ (by simp),
      lookup_setEntry_self]
  · rw [savedPairs, writeAll_append, writeAll_append, guiPairs, writeAll_cons, writeAll_cons,
      writeAll_cons, writeAll_cons, writeAll_cons, writeAll_nil,
      lookup_setEntry_ne _ _ _ _ (by simp), lookup_setEntry_self]
  · rw [savedPairs, writeAll_append, writeAll_append, guiPairs, writeAll_cons, writeAll_cons,
      writeAll_cons, writeAll_cons, writeAll_cons, writeAll_nil, lookup_setEntry_self]

/-! ## Window subgroups -/

theorem lookup_windowPairs (h : QHash) (names : List String)
    (hp : ∀ name ∈ names, plainName name) (es : Entries) (n : String) (hn : n ∈ names) :
    List.lookup ["WindowSettings", n, "geometry"] (writeAll (windowPairs h names) es)
        = some (.byteArray (QHash.value h n).geometry)
      ∧ List.lookup ["WindowSettings", n, "state"] (writeAll (windowPairs h names) es)
          = some (.byteArray (QHash.value h n).state) := by
  induction names generalizing es with
  | nil => cases hn
  | cons a rest ih =>
    rw [windowPairs, writeAll_append]
    by_cases hr : n ∈ rest
    · exact ih (fun name hname => hp name (List.mem_cons_of_mem _ hname)) _ hr
    · have hna : n = a := by
        rcases List.mem_cons.mp hn with h1 | h1
        · exact h1
        · exact absurd h1 hr
      subst hna
      have hnot : ∀ f : String,
          ["WindowSettings", n, f] ∉ (windowPairs h rest).map Prod.fst := by
        intro f hm
        obtain ⟨name, g, hname, hg⟩ := mem_windowPairs _ _ _ hm
        rw [normalizedKey_plain name (hp name (List.mem_cons_of_mem _ hname))] at hg
        simp only [List.singleton_append, List.cons.injEq, true_and] at hg
        exact hr (hg.1 ▸ hname)
      rw [lookup_writeAll_not_mem _ _ _ (hnot "geometry"),
        lookup_writeAll_not_mem _ _ _ (hnot "state"), pairsOfWindow,
        normalizedKey_plain n (hp n (List.mem_cons_self _ _))]
      simp only [List.singleton_append, writeAll_cons, writeAll_nil]
      exact ⟨by rw [lookup_setEntry_ne _ _ _ _ (by simp), lookup_setEntry_self],
        lookup_setEntry_self _ _ _⟩

theorem lookup_assignWindow_self (n : String) (w : WindowSettings) (h : QHash) :
    List.lookup n (assignWindow n w h) = some w := by
  rw [assignWindow, lookup_update_self, lookup_update_self]
  rfl

theorem lookup_assignWindow_other (n name : String) (w : WindowSettings) (h : QHash)
    (hn : n ≠ name) : List.lookup n (assignWindow name w h) = List.lookup n h := by
  rw [assignWindow, lookup_update_other _ _ _ _ hn, lookup_update_other _ _ _ _ hn]

theorem lookup_assign_fold (w : String → WindowSettings) (names : List String) (h0 : QHash)
    (n : String) :
    List.lookup n (names.foldl (fun h name => assignWindow name (w name) h) h0)
      = if n ∈ names then some (w n) else List.lookup n h0 := by
  induction names generalizing h0 with
  | nil => simp
  | cons a rest ih =>
    rw [List.foldl_cons, ih]
    by_cases hr : n ∈ rest
    · simp [hr]
    · by_cases hna : n = a
      · subst hna
        simp [hr, lookup_assignWindow_self]
      · simp [hr, hna, lookup_assignWindow_other _ _ _ _ hna]

theorem childGroupOf_window (k : Key) (n : String)
    (h : childGroupOf ["WindowSettings"] k = some n) :
    ∃ x : String, ∃ rest : Key, k = "WindowSettings" :: n :: x :: rest := by
  unfold childGroupOf at h
  match k, h with
  | [], h => simp [List.isPrefixOf] at h
  | [a], h => simp [List.isPrefixOf] at h
  | [a, b], h => simp [List.isPrefixOf] at h
  | a :: b :: c :: rest, h =>
    simp only [List.isPrefixOf, Bool.and_true, beq_iff_eq, List.length_singleton, List.drop_succ_cons,
      List.drop_zero] at h
    by_cases ha : "WindowSettings" = a
    · subst ha
      simp at h
      subst h
      exact ⟨c, rest, rfl⟩
    · simp [ha] at h

theorem lookup_some_of_mem_keys (h : QHash) (n : String) (hn : n ∈ h.map Prod.fst) :
    ∃ w : WindowSettings, List.lookup n h = some w := by
  induction h with
  | nil => cases hn
  | cons e rest ih =>
    obtain ⟨k0, v⟩ := e
    by_cases hk : n = k0
    · subst hk
      exact ⟨v, by simp [List.lookup]⟩
    · have hb : (n == k0) = false := by simpa using hk
      have hm : n ∈ rest.map Prod.fst := by
        rcases List.mem_cons.mp hn with h1 | h1
        · exact absurd h1 hk
        · exact h1
      obtain ⟨w, hw⟩ := ih hm
      exact ⟨w, by simp [List.lookup, hb, hw]⟩

theorem lookup_none_of_not_mem_keys (h : QHash) (n : String) (hn : n ∉ h.map Prod.fst) :
    List.lookup n h = none := by
  induction h with
  | nil => rfl
  | cons e rest ih =>
    obtain ⟨k0, v⟩ := e
    simp only [List.map_cons, List.mem_cons, not_or] at hn
    have hb : (n == k0) = false := by simpa using hn.1
    simp [List.lookup, hb, ih hn.2]

theorem mem_windowGroups_saved (st : Settings)
    (hp : ∀ name ∈ QHash.keys st.windowSettings, plainName name) (n : String) :
    n ∈ windowGroups (writeAll (savedPairs st) []) ↔ n ∈ QHash.keys st.windowSettings := by
  simp only [windowGroups, List.mem_dedup, List.mem_filterMap]
  constructor
  · rintro ⟨e, he, hc⟩
    obtain ⟨x, rest, hk⟩ := childGroupOf_window _ _ hc
    have hm : e.1 ∈ (writeAll (savedPairs st) []).map Prod.fst := List.mem_map_of_mem _ he
    rw [mem_keys_writeAll, savedPairs, List.map_append, List.mem_append, List.map_append,
      List.mem_append] at hm
    rcases hm with (hm | hm | hm) | hm
    · rcases head_headPairs _ _ hm with h1 | h1 <;> simp [hk] at h1
    · obtain ⟨name, f, hname, hf⟩ := mem_windowPairs _ _ _ hm
      rw [normalizedKey_plain name (hp name hname), hk] at hf
      simp only [List.singleton_append, List.cons.injEq, true_and] at hf
      exact hf.1 ▸ hname
    · have h1 := head_guiPairs _ _ hm
      simp [hk] at h1
    · cases hm
  · intro hn
    have hm : ("WindowSettings" :: (normalizedKey n ++ ["geometry"]))
        ∈ (writeAll (savedPairs st) []).map Prod.fst := by
      rw [mem_keys_writeAll, savedPairs, List.map_append, List.mem_append, List.map_append,
        List.mem_append]
      exact Or.inl (Or.inr (Or.inl (geometry_mem_windowPairs _ _ _ hn)))
    obtain ⟨e, he, hk⟩ := List.mem_map.mp hm
    refine ⟨e, he, ?_⟩
    rw [hk, normalizedKey_plain n (hp n hn)]
    rfl

theorem windows_saved (q : Qt) (st : Settings)
    (hp : ∀ name ∈ QHash.keys st.windowSettings, plainName name) (n : String) :
    List.lookup n
        ((windowGroups (writeAll (savedPairs st) [])).foldl
          (fun h name => assignWindow name (windowAt q (writeAll (savedPairs st) []) name) h) [])
      = List.lookup n st.windowSettings := by
  rw [lookup_assign_fold]
  by_cases hn : n ∈ windowGroups (writeAll (savedPairs st) [])
  · rw [if_pos hn]
    have hk := (mem_windowGroups_saved st hp n).mp hn
    obtain ⟨hg, hs⟩ := lookup_windowPairs st.windowSettings _ hp (writeAll (headPairs st) []) n hk
    have hm : n ∈ st.windowSettings.map Prod.fst := List.mem_dedup.mp hk
    obtain ⟨w, hw⟩ := lookup_some_of_mem_keys _ _ hm
    have hv : QHash.value st.windowSettings n = w := by
      simp [QHash.value, hw]
    rw [hw, windowAt, normalizedKey_plain n (hp n hk)]
    simp only [List.singleton_append, entryAt]
    rw [lookup_saved_window st ["WindowSettings", n, "geometry"] rfl,
      lookup_saved_window st ["WindowSettings", n, "state"] rfl, hg, hs, hv]
    rfl
  · rw [if_neg hn]
    have hk : n ∉ st.windowSettings.map Prod.fst := fun hm =>
      hn ((mem_windowGroups_saved st hp n).mpr (List.mem_dedup.mpr hm))
    rw [lookup_none_of_not_mem_keys _ _ hk]
    rfl

/-! ## Claims on save followed by load -/

theorem roundTrip_eq (q : Qt) (u : Uninitialised) (fs : FileSystem) (st : Settings) :
    roundTrip q u fs st = loadedFrom q (writeAll (savedPairs st) []) (Settings.initial u) := by
  rw [roundTrip, construct_eq]
  have h : (st.save fs).readable = writeAll (savedPairs st) [] :=
    saveEntries_eq st (fs.userFile.getD [])
  rw [h]

theorem mem_keys_iff_lookup (h : QHash) (n : String) :
    n ∈ QHash.keys h ↔ ∃ w : WindowSettings, List.lookup n h = some w := by
  rw [QHash.keys, List.mem_dedup]
  constructor
  · exact lookup_some_of_mem_keys h n
  · rintro ⟨w, hw⟩
    by_contra hn
    rw [lookup_none_of_not_mem_keys h n hn] at hw
    cases hw

/-- C10: when every identifier of the window map is non-empty and free of slashes, the map a
fresh store loads from the saved file has the same lookups and the same identifiers as the
saved map, and the subgroups `load` enumerates under `WindowSettings` are exactly the
identifiers `save` opened a subgroup for. -/
theorem window_map_roundtrip (q : Qt) (u : Uninitialised) (fs : FileSystem) (st : Settings)
    (hp : ∀ name ∈ QHash.keys st.windowSettings, plainName name) :
    (∀ n : String,
        QHash.constFind (Settings.construct q u (st.save fs)).windowSettings n
          = QHash.constFind st.windowSettings n)
      ∧ (∀ n : String,
          n ∈ QHash.keys (Settings.construct q u (st.save fs)).windowSettings
            ↔ n ∈ QHash.keys st.windowSettings)
      ∧ (∀ n : String,
          n ∈ (QSettings.beginGroup { entries := (st.save fs).readable, groupStack := [] }
              "WindowSettings").childGroups
            ↔ n ∈ QHash.keys st.windowSettings) := by
  have h1 : ∀ n : String,
      QHash.constFind (Settings.construct q u (st.save fs)).windowSettings n
        = QHash.constFind st.windowSettings n := by
    intro n
    have hr := roundTrip_eq q u fs st
    rw [roundTrip] at hr
    rw [hr]
    exact windows_saved q st hp n
  refine ⟨h1, ?_, ?_⟩
  · intro n
    rw [mem_keys_iff_lookup, mem_keys_iff_lookup]
    have h2 := h1 n
    simp only [QHash.constFind] at h2
    rw [h2]
  · intro n
    have h : (st.save fs).readable = writeAll (savedPairs st) [] :=
      saveEntries_eq st (fs.userFile.getD [])
    have hc : (QSettings.beginGroup { entries := (st.save fs).readable, groupStack := [] }
        "WindowSettings").childGroups = windowGroups (writeAll (savedPairs st) []) := by
      rw [h]
      simp [QSettings.childGroups, QSettings.beginGroup, windowGroups, groupPath,
        QSettingsGroup.toKey]
    rw [hc]
    exact mem_windowGroups_saved st hp n

/-- Witness for C10: the window map of `exampleStore` has the single identifier `main`. -/
theorem window_map_roundtrip_witness :
    QHash.constFind
        (Settings.construct exampleQt zeroStorage
          (exampleStore.save emptyFileSystem)).windowSettings "main"
      = QHash.constFind exampleStore.windowSettings "main" :=
  (window_map_roundtrip exampleQt zeroStorage emptyFileSystem exampleStore (by decide)).1 "main"

/-- C1 as stated fails: after `save` and a fresh `load` the two logging flags are those of
the fresh store, not the saved ones, and the layout saved for the window `a/b` is lost. -/
theorem roundtrip_counterexample :
    (roundTrip exampleQt zeroStorage emptyFileSystem slashStore).enableLogging
        ≠ slashStore.enableLogging
      ∧ (roundTrip exampleQt zeroStorage emptyFileSystem slashStore).encryptLogs
          ≠ slashStore.encryptLogs
      ∧ QHash.constFind
          (roundTrip exampleQt zeroStorage emptyFileSystem slashStore).windowSettings "a/b"
          ≠ QHash.constFind slashStore.windowSettings "a/b" := by
  decide

/-- C1 amended: for every state, `save` followed by `load` on a fresh store reproduces the
server list in order and every scalar field other than the two logging flags, and the
logging flags are those the fresh store was built with; when moreover every identifier of
the window map is non-empty and free of slashes, the window map is reproduced with the same
identifiers and the same blobs. -/
theorem save_load_roundtrip (q : Qt) (u : Uninitialised) (fs : FileSystem) (st : Settings) :
    (roundTrip q u fs st).getDhtServerList = st.getDhtServerList
      ∧ (roundTrip q u fs st).getUsername = st.getUsername
      ∧ (roundTrip q u fs st).getStatusMessage = st.getStatusMessage
      ∧ (roundTrip q u fs st).isAnimationEnabled = st.isAnimationEnabled
      ∧ (roundTrip q u fs st).getSmileyPack = st.getSmileyPack
      ∧ (roundTrip q u fs st).isCurstomEmojiFont = st.isCurstomEmojiFont
      ∧ (roundTrip q u fs st).getEmojiFontFamily = st.getEmojiFontFamily
      ∧ (roundTrip q u fs st).getEmojiFontPointSize = st.getEmojiFontPointSize
      ∧ (roundTrip q u fs st).getEnableLogging = u.enableLogging
      ∧ (roundTrip q u fs st).getEncryptLogs = u.encryptLogs
      ∧ (roundTrip q u fs st).loaded = true
      ∧ ((∀ name ∈ QHash.keys st.windowSettings, plainName name) →
          (∀ n : String,
              QHash.constFind (roundTrip q u fs st).windowSettings n
                = QHash.constFind st.windowSettings n)
            ∧ (∀ n : String,
                n ∈ QHash.keys (roundTrip q u fs st).windowSettings
                  ↔ n ∈ QHash.keys st.windowSettings)) := by
  rw [roundTrip_eq]
  obtain ⟨hu, hs⟩ := lookup_saved_general st
  obtain ⟨g1, g2, g3, g4, g5⟩ := lookup_saved_gui st
  refine ⟨?_, ?_, ?_, ?_, ?_, ?_, ?_, ?_, rfl, rfl, rfl, ?_⟩
  · simp only [Settings.getDhtServerList, loadedFrom, Settings.initial, List.nil_append]
    exact servers_saved q st
  · simp only [Settings.getUsername, loadedFrom, entryAt, hu, Option.getD_some,
      QVariant.toString]
  · simp only [Settings.getStatusMessage, loadedFrom, entryAt, hs, Option.getD_some,
      QVariant.toString]
  · simp only [Settings.isAnimationEnabled, loadedFrom, entryAt, g1, Option.getD_some,
      QVariant.toBool]
  · simp only [Settings.getSmileyPack, loadedFrom, entryAt, g2, Option.getD_some,
      QVariant.toByteArray]
  · simp only [Settings.isCurstomEmojiFont, loadedFrom, entryAt, g3, Option.getD_some,
      QVariant.toBool]
  · simp only [Settings.getEmojiFontFamily, loadedFrom, entryAt, g4, Option.getD_some,
      QVariant.toString]
  · simp only [Settings.getEmojiFontPointSize, loadedFrom, entryAt, g5, Option.getD_some,
      QVariant.toInt]
  · intro hp
    have hw : ∀ n : String,
        QHash.constFind
            (loadedFrom q (writeAll (savedPairs st) []) (Settings.initial u)).windowSettings n
          = QHash.constFind st.windowSettings n := fun n => windows_saved q st hp n
    refine ⟨hw, ?_⟩
    intro n
    rw [mem_keys_iff_lookup, mem_keys_iff_lookup]
    have h2 := hw n
    simp only [QHash.constFind] at h2
    rw [h2]

/-- Witness for C1 amended: `exampleStore`, whose only window is `main`, keeps the layout of
`main` through `save` and a fresh `load`. -/
theorem save_load_roundtrip_witness :
    QHash.constFind
        (roundTrip exampleQt zeroStorage emptyFileSystem exampleStore).windowSettings "main"
      = QHash.constFind exampleStore.windowSettings "main" :=
  ((save_load_roundtrip exampleQt zeroStorage emptyFileSystem exampleStore).2.2.2.2.2.2.2.2.2.2.2
    (by decide)).1 "main"

end ToxSettings
